import Mathlib

/-!
Verification development for the forensic metadata triage engine
(`src/rar.py`: `ForensicMetadataAnalyzer`, and `src/wow.py`: the keyword/entity
matcher).  The Python source is shallowly embedded: every definition below is a
direct translation of the corresponding Python function; stateful methods are
modelled by explicit state passing on `AnalyzerState`.  Strings are ASCII in
all inputs of interest; Python's `str.lower` is modelled by a character-wise
lowering, Python's `in` (substring test) by `pyIn`, Python dictionaries (which
iterate in insertion order) by association lists built with upsert operations,
and the `re` module by a small backtracking regex interpreter (`RE`,
`matchEnds`, `reFindAll`) that implements Python's leftmost, priority-first
match semantics for the exact patterns the source uses.  Floating-point
similarity scores are idealised as rationals.  Only the graph-statistics layer
(degree centrality / greedy-modularity communities), which the source delegates
to an external graph library whose code is not part of this repository, is
modelled from the specification text; those definitions say so in their doc
comments.
-/

/-! ## String helpers -/

/-- Python's substring test `needle in hay` on lists of characters:
true iff `pat` occurs as a contiguous sublist of the second argument. -/
def hasSubstrAux (pat : List Char) : List Char → Bool
  | [] => pat.isEmpty
  | c :: s' => pat.isPrefixOf (c :: s') || hasSubstrAux pat s'

/-- Python's `needle in hay` for strings. -/
def pyIn (needle hay : String) : Bool := hasSubstrAux needle.data hay.data

/-- Python's `str.lower`, character-wise (ASCII; all inputs of interest are
ASCII).  Implemented structurally so the kernel can evaluate it. -/
def lowerStr (s : String) : String := String.mk (s.data.map Char.toLower)

/-- Python's `str(list_of_strings)` rendering, e.g. `['rifle', 'mask']`;
used by the categorizer's weapon check on the `tags` field. -/
def pyReprList (l : List String) : String :=
  "[" ++ String.intercalate ", " (l.map (fun t => "'" ++ t ++ "'")) ++ "]"

/-- Lexicographic strict comparison of character lists by code point,
Python's `<` on strings. -/
def listLtChars : List Char → List Char → Bool
  | [], [] => false
  | [], _ :: _ => true
  | _ :: _, [] => false
  | a :: as, b :: bs => if a < b then true else if b < a then false else listLtChars as bs

/-- Python's `a < b` on strings. -/
def strLt (a b : String) : Bool := listLtChars a.data b.data

/-- Python's `a <= b` on strings (total order: `¬ (b < a)`). -/
def strLe (a b : String) : Bool := !(strLt b a)

/-! ## A small regex interpreter for the patterns used by the source

`matchEnds t r i` returns the possible end positions of a match of `r`
starting at position `i` of the text `t`, in backtracking priority order
(greedy alternatives first, exactly as Python's `re` explores them); the head
of the list is the end position Python's engine reports.  `reFindAll` is
`re.findall`: repeatedly take the leftmost match and continue after it. -/

/-- Python's regex word character `\w` (ASCII): letters, digits, underscore. -/
def isWordChar (c : Char) : Bool := c.isAlphanum || c == '_'

/-- Whether position `i` of `t` holds a word character. -/
def isWordAt (t : List Char) (i : Nat) : Bool :=
  match t[i]? with
  | some c => isWordChar c
  | none => false

/-- Python's `\b`: a word boundary at position `i` (exactly one of the two
neighbouring positions holds a word character). -/
def atBoundary (t : List Char) (i : Nat) : Bool :=
  (if i = 0 then false else isWordAt t (i-1)) != isWordAt t i

/-- Regex abstract syntax: empty, character class, sequencing, prioritised
alternation, starred character class (with a laziness flag), and `\b`.
Bounded repetitions are expanded into this syntax by the builders below. -/
inductive RE : Type where
  | eps : RE
  | cls : (Char → Bool) → RE
  | seq : RE → RE → RE
  | alt : RE → RE → RE
  | star : (Char → Bool) → Bool → RE
  | wordB : RE

/-- Length of the maximal run of characters satisfying `p` at the front. -/
def runLenAux (p : Char → Bool) : List Char → Nat
  | [] => 0
  | c :: cs => if p c then runLenAux p cs + 1 else 0

/-- End positions for `p*` (lazy: shortest first; greedy: longest first). -/
def starEnds (p : Char → Bool) (lazy : Bool) (t : List Char) (i : Nat) : List Nat :=
  let r := runLenAux p (t.drop i)
  let ends := (List.range (r+1)).map (i + ·)
  if lazy then ends else ends.reverse

/-- All end positions of a match of the regex at position `i`, in Python's
backtracking priority order. -/
def matchEnds (t : List Char) : RE → Nat → List Nat
  | .eps, i => [i]
  | .cls p, i =>
    match t[i]? with
    | some c => if p c then [i+1] else []
    | none => []
  | .seq a b, i => (matchEnds t a i).flatMap (matchEnds t b)
  | .alt a b, i => matchEnds t a i ++ matchEnds t b i
  | .star p lz, i => starEnds p lz t i
  | .wordB, i => if atBoundary t i then [i] else []

/-- A literal string as a regex. -/
def litRE (s : String) : RE :=
  s.data.foldr (fun c r => RE.seq (RE.cls (fun c' => c' == c)) r) RE.eps

/-- Greedy `r?`: prefer the match to be present. -/
def optRE (a : RE) : RE := RE.alt a RE.eps

/-- `r{n}`: exactly `n` copies. -/
def repExact (a : RE) : Nat → RE
  | 0 => RE.eps
  | n+1 => RE.seq a (repExact a n)

/-- Up to `n` further greedy copies of `a` (each one preferred present),
the tail of a bounded repetition. -/
def optChain (a : RE) : Nat → RE
  | 0 => RE.eps
  | n+1 => RE.alt (RE.seq a (optChain a n)) RE.eps

/-- Greedy `a{lo,hi}`. -/
def repRange (a : RE) (lo hi : Nat) : RE := RE.seq (repExact a lo) (optChain a (hi - lo))

/-- `\b w \b` for a literal `w`, the shape of every keyword pattern. -/
def wbWord (w : String) : RE := RE.seq RE.wordB (RE.seq (litRE w) RE.wordB)

/-- Greedy `p+` for a character class. -/
def plusRE (p : Char → Bool) : RE := RE.seq (RE.cls p) (RE.star p false)

/-- The substring of `t` from position `i` (inclusive) to `e` (exclusive). -/
def sliceStr (t : List Char) (i e : Nat) : String := String.mk ((t.drop i).take (e - i))

/-- Scan of `re.findall`: at each position try to match; on success record
the span and continue after it (after a one-character step for an empty
match), otherwise advance one position.  `fuel` bounds the number of steps;
`t.length + 1` always suffices. -/
def findAllAux (t : List Char) (r : RE) : Nat → Nat → List (Nat × Nat)
  | 0, _ => []
  | fuel+1, i =>
    if i ≤ t.length then
      match (matchEnds t r i).head? with
      | some e => (i, e) :: findAllAux t r fuel (max e (i+1))
      | none => findAllAux t r fuel (i+1)
    else []

/-- `re.findall` (for patterns without capture groups: the matched texts). -/
def reFindAll (r : RE) (s : String) : List String :=
  let t := s.data
  (findAllAux t r (t.length + 1) 0).map (fun ie => sliceStr t ie.1 ie.2)

/-! ## `src/wow.py`: the keyword/entity matcher -/

/-- Python's `\s` white-space class (ASCII). -/
def isPySpace (c : Char) : Bool :=
  c == ' ' || c == '\t' || c == '\n' || c == '\r' || c == '\x0b' || c == '\x0c'

/-- The source's Terrorism list ends in `r"\brecruitment\b" r"\brifle\b"`:
a missing list comma makes Python concatenate the two adjacent string
literals into the single pattern `\brecruitment\b\brifle\b`.  This is that
merged pattern, exactly as compiled by the source. -/
def terrorismMerged : RE :=
  RE.seq RE.wordB (RE.seq (litRE "recruitment")
    (RE.seq RE.wordB (RE.seq RE.wordB (RE.seq (litRE "rifle") RE.wordB))))

/-- `THREAT_KEYWORDS` of `src/wow.py`: category names with their trigger
patterns, in source order.  All patterns are `\bword\b` except the merged
Terrorism pattern (see `terrorismMerged`). -/
def THREAT_KEYWORDS : List (String × List RE) :=
  [ ("Financial fraud",
      [wbWord "bank card", wbWord "approval code", wbWord "cash receipt",
       wbWord "total", wbWord "cash", wbWord "change"]),
    ("Identity theft",
      [wbWord "aadhar", wbWord "pan", wbWord "passport", wbWord "ssn", wbWord "dl"]),
    ("Weapons/Violence",
      [wbWord "knife", wbWord "gun", wbWord "rifle", wbWord "grenade", wbWord "explosive"]),
    ("Drugs/Illegal",
      [wbWord "cocaine", wbWord "weed", wbWord "heroin", wbWord "meth"]),
    ("Explicit content",
      [wbWord "xxx", wbWord "nsfw", wbWord "18+"]),
    ("Terrorism",
      [wbWord "bomb", wbWord "attack", wbWord "isis", terrorismMerged]),
    ("Surveillance",
      [wbWord "location", wbWord "recording", wbWord "camera", wbWord "tracking"]),
    ("Encrypted/Hidden",
      [wbWord "encrypted", wbWord "password-protected", wbWord "stego",
       wbWord "steganography"]) ]

/-- `EMAIL_RE = [a-zA-Z0-9_.+-]+@[a-zA-Z0-9-]+\.[a-zA-Z0-9-.]+`. -/
def EMAIL_RE : RE :=
  RE.seq (plusRE (fun c => c.isAlphanum || c == '_' || c == '.' || c == '+' || c == '-'))
    (RE.seq (RE.cls (fun c => c == '@'))
      (RE.seq (plusRE (fun c => c.isAlphanum || c == '-'))
        (RE.seq (RE.cls (fun c => c == '.'))
          (plusRE (fun c => c.isAlphanum || c == '-' || c == '.')))))

/-- `URL_RE = https?://[^\s]+`. -/
def URL_RE : RE :=
  RE.seq (litRE "http") (RE.seq (optRE (RE.cls (fun c => c == 's')))
    (RE.seq (litRE "://") (plusRE (fun c => !isPySpace c))))

/-- The separator class `[-.\s]` of `PHONE_RE`. -/
def phoneSep : RE := RE.cls (fun c => c == '-' || c == '.' || isPySpace c)

/-- `PHONE_RE = \b\d{3,4}[-.\s]?\d{3,4}[-.\s]?\d{4}\b`. -/
def PHONE_RE : RE :=
  RE.seq RE.wordB
    (RE.seq (repRange (RE.cls Char.isDigit) 3 4)
      (RE.seq (optRE phoneSep)
        (RE.seq (repRange (RE.cls Char.isDigit) 3 4)
          (RE.seq (optRE phoneSep)
            (RE.seq (repExact (RE.cls Char.isDigit) 4) RE.wordB)))))

/-- `CREDIT_CARD_RE = \b(?:\d[ -]*?){13,16}\b` (lazy inner separator run). -/
def CREDIT_CARD_RE : RE :=
  RE.seq RE.wordB
    (RE.seq (repRange (RE.seq (RE.cls Char.isDigit)
        (RE.star (fun c => c == ' ' || c == '-') true)) 13 16)
      RE.wordB)

/-- `detect_keywords`: triggered categories and all keyword matches.
`re.IGNORECASE` is modelled by matching the (lower-case) literals against the
lowered text.  The source collects categories in a Python `set` whose
iteration order is unspecified; here they are listed in table order, which is
faithful up to membership. -/
def detect_keywords (text : String) : List String × List String :=
  let lt := lowerStr text
  ((THREAT_KEYWORDS.filter (fun cp => cp.2.any (fun p => !(reFindAll p lt).isEmpty))).map
      (fun cp => cp.1),
   THREAT_KEYWORDS.flatMap (fun cp => cp.2.flatMap (fun p => reFindAll p lt)))

/-- `detect_entities`: `(type, value)` pairs from the four entity regexes,
in source order, with no deduplication. -/
def detect_entities (text : String) : List (String × String) :=
  [("email", EMAIL_RE), ("url", URL_RE), ("phone", PHONE_RE),
   ("credit_card", CREDIT_CARD_RE)].flatMap
    (fun lr => (reFindAll lr.2 text).map (fun v => (lr.1, v)))

/-- `compute_score`: `num_keys + 2 * num_ents`. -/
def compute_score (num_keys num_ents : Nat) : Nat := num_keys + 2 * num_ents

/-- The `content` field of an input record of `analyze_json`: absent,
a string, or an object exposing an optional `text` field. -/
inductive PyContent : Type where
  | absent : PyContent
  | str : String → PyContent
  | obj : Option String → PyContent
deriving DecidableEq

/-- The text extraction of `analyze_json`:
`content = entry.get("content", "")`, then
`text = content.get("text", "") if isinstance(content, dict) else content`. -/
def extractText : PyContent → String
  | .absent => ""
  | .str s => s
  | .obj t => t.getD ""

/-- An input record of `analyze_json` (the fields its loop body reads). -/
structure Entry : Type where
  path : Option String
  file_path : Option String
  content : PyContent
deriving DecidableEq

/-- Python's `a or b` over an optional string (empty strings are falsy). -/
def pyOrStr (a : Option String) (b : String) : String :=
  match a with
  | some s => if s = "" then b else s
  | none => b

/-- Per-entry analysis result of `analyze_json`. -/
structure EntryResult : Type where
  file : String
  text : String
  entities : List (String × String)
  threat_detected : Bool
  score : Nat
  categories : List String
  keywords : List String
  summary : String
deriving DecidableEq

/-- The loop body of `analyze_json` for one entry (the surrounding file
input/output is an external collaborator and out of scope). -/
def analyzeEntry (e : Entry) : EntryResult :=
  let file := pyOrStr e.path (pyOrStr e.file_path "unknown")
  let text := extractText e.content
  let ck := detect_keywords text
  let ents := detect_entities text
  let score := compute_score ck.2.length ents.length
  let threat := decide (0 < score)
  let summary :=
    if threat then
      "Detected threats in categories: " ++ String.intercalate ", " ck.1 ++
        " (score " ++ toString score ++ ")."
    else "No threats detected."
  ⟨file, text, ents, threat, score, ck.1, ck.2, summary⟩

/-! ## `src/rar.py`: data model and the analyzer session -/

/-- A raw input record as consumed by `_categorize_items`: the `path` key may
be missing (Python then raises `KeyError`). -/
structure RawRecord : Type where
  path : Option String
  type : String
  content : Option String
  tags : List String
deriving DecidableEq

/-- A well-formed record of the data model (`path` present, as §3 of the
design requires of every ingested record). -/
structure Record : Type where
  path : String
  type : String
  content : Option String
  tags : List String
deriving DecidableEq

/-- Forgetting that a well-formed record has its `path`. -/
def Record.toRaw (r : Record) : RawRecord := ⟨some r.path, r.type, r.content, r.tags⟩

/-- `str(item.get('content', ''))`: the content rendered as text. -/
def contentStr : Option String → String
  | some s => s
  | none => ""

/-- Python truthiness of `item.get('content')`: present and non-empty. -/
def contentTruthy : Option String → Bool
  | some s => !s.data.isEmpty
  | none => false

/-- The content keyword vocabulary of `_categorize_items`. -/
def contentVocab : List String := ["bomb", "attack", "explosive", "threat", "terrorist"]

/-- The weapon vocabulary of `_categorize_items` (checked against the
rendered tag list). -/
def weaponVocab : List String :=
  ["assault rifle", "rifle", "revolver", "weapon", "bulletproof"]

/-- The classification cascade of `_categorize_items` for one record whose
`path` is present: `true` = threat, `false` = safe.  Direct translation of
the `if`/`elif` chain of the source. -/
def classifyRecord (path : String) (content : Option String) (tags : List String) : Bool :=
  if pyIn "_threat" (lowerStr path) || pyIn "threat" (lowerStr (contentStr content)) then
    true
  else if pyIn "_safe" (lowerStr path) then
    false
  else if contentTruthy content &&
      contentVocab.any (fun k => pyIn k (lowerStr (contentStr content))) then
    true
  else if weaponVocab.any (fun w => pyIn w (lowerStr (pyReprList tags))) then
    true
  else
    false

/-- Outcome of `_categorize_items`: the two index lists as mutated so far and
whether the loop ran to completion (`ok = false` models the `KeyError`
raised on a record with no `path`; the lists keep the classifications already
appended before the error). -/
structure CatResult : Type where
  threat_items : List Nat
  safe_items : List Nat
  ok : Bool
deriving DecidableEq

/-- The loop of `_categorize_items`: walk the records from index `idx`
appending to the two accumulator lists; abort (keeping the accumulators) at
the first record whose `path` is missing, since the very first condition of
the cascade evaluates `item['path']`. -/
def categorizeAux : List RawRecord → Nat → List Nat → List Nat → CatResult
  | [], _, ts, ss => ⟨ts, ss, true⟩
  | r :: rest, idx, ts, ss =>
    match r.path with
    | none => ⟨ts, ss, false⟩
    | some p =>
      if classifyRecord p r.content r.tags then
        categorizeAux rest (idx+1) (ts ++ [idx]) ss
      else
        categorizeAux rest (idx+1) ts (ss ++ [idx])

/-- `_categorize_items` on a fresh session (both index lists empty). -/
def categorize_items (data : List RawRecord) : CatResult := categorizeAux data 0 [] []

/-- Append `v` to the list stored under `k` in an insertion-ordered
association list, creating the key at the end if absent: the behaviour of
Python's `defaultdict(list)[k].append(v)`. -/
def dictApp {α β : Type} [DecidableEq α] (k : α) (v : β) :
    List (α × List β) → List (α × List β)
  | [] => [(k, [v])]
  | kv :: rest => if kv.1 = k then (kv.1, kv.2 ++ [v]) :: rest else kv :: dictApp k v rest

/-- Increment the count stored under `k`, creating the key at the end if
absent: Python's `Counter`/`defaultdict(int)` update. -/
def bump {α : Type} [DecidableEq α] (k : α) : List (α × Nat) → List (α × Nat)
  | [] => [(k, 1)]
  | kv :: rest => if kv.1 = k then (kv.1, kv.2 + 1) :: rest else kv :: bump k rest

/-- Counts of the elements of `l`, keyed in first-appearance order
(Python's `Counter(l)` as an insertion-ordered dict). -/
def countDict {α : Type} [DecidableEq α] (l : List α) : List (α × Nat) :=
  l.foldl (fun d k => bump k d) []

/-- Lookup in an association list. -/
def alookup {α β : Type} [DecidableEq α] : List (α × β) → α → Option β
  | [], _ => none
  | kv :: rest, k => if kv.1 = k then some kv.2 else alookup rest k

/-- The `tag_to_files` index of `find_tag_correlations`: tag to the list of
file paths carrying it, in insertion order (a path repeats if the tag does). -/
def tag_to_files (data : List Record) : List (String × List String) :=
  data.foldl (fun d r => r.tags.foldl (fun d t => dictApp t r.path d) d) []

/-- The inner loop of the `file_to_tags` construction: append every tag of a
file under the file's key. -/
def tagsFold (k : String) (ts : List String) (d : List (String × List String)) :
    List (String × List String) :=
  ts.foldl (fun d t => dictApp k t d) d

/-- The `file_to_tags` index of `find_tag_correlations`. -/
def file_to_tags (data : List Record) : List (String × List String) :=
  data.foldl (fun d r => tagsFold r.path r.tags d) []

/-- `shared_tags`: the `tag_to_files` entries held by more than one file. -/
def shared_tags (data : List Record) : List (String × List String) :=
  (tag_to_files data).filter (fun kv => 1 < kv.2.length)

/-- `tuple(sorted([a, b]))` — the canonicalised tag pair. -/
def sortPair (a b : String) : String × String :=
  if strLe a b then (a, b) else (b, a)

/-- All pairs `(tags[i], tags[j])` with `i < j`, canonicalised: the inner
double loop of `find_tag_correlations`. -/
def pairsOfTags : List String → List (String × String)
  | [] => []
  | t :: ts => ts.map (sortPair t) ++ pairsOfTags ts

/-- The multiset of canonicalised tag pairs contributed by all files
(only files with two or more tags contribute, per the source's guard). -/
def coocPairs (data : List Record) : List (String × String) :=
  (file_to_tags data).flatMap (fun kv => if 1 < kv.2.length then pairsOfTags kv.2 else [])

/-- `tag_cooccurrence`: pair-to-count dictionary in insertion order. -/
def tag_cooccurrence (data : List Record) : List ((String × String) × Nat) :=
  countDict (coocPairs data)

/-- Node attributes of the relationship graph: a file node carries its type
and threat flag, a tag node only its kind. -/
inductive NodeAttr : Type where
  | fileNode : String → Bool → NodeAttr
  | tagNode : NodeAttr
deriving DecidableEq

/-- The undirected file/tag relationship graph: insertion-ordered node list
with attributes, and an undirected edge list without duplicates. -/
structure Graph : Type where
  nodes : List (String × NodeAttr)
  edges : List (String × String)
deriving DecidableEq

/-- `networkx.Graph.add_node`: a new node is appended, an existing node has
its attributes overwritten in place. -/
def nodeUpsert (k : String) (a : NodeAttr) : List (String × NodeAttr) → List (String × NodeAttr)
  | [] => [(k, a)]
  | kv :: rest => if kv.1 = k then (kv.1, a) :: rest else kv :: nodeUpsert k a rest

/-- Node membership test (`tag not in G` in the source). -/
def Graph.hasNode (G : Graph) (k : String) : Bool := G.nodes.any (fun na => na.1 == k)

/-- Undirected edge membership test. -/
def Graph.hasEdge (G : Graph) (u v : String) : Bool :=
  G.edges.any (fun e => (e.1 == u && e.2 == v) || (e.1 == v && e.2 == u))

/-- `add_edge` on an undirected graph: idempotent. -/
def Graph.addEdge (G : Graph) (u v : String) : Graph :=
  if G.hasEdge u v then G else { G with edges := G.edges ++ [(u, v)] }

/-- The graph construction of `build_tag_graph`: a file node per record
(attributes refreshed on duplicate paths), a tag node per tag not already a
node, and a file-tag edge per membership. -/
def build_graph (data : List Record) (threat_items : List Nat) : Graph :=
  data.enum.foldl (fun G ir =>
    let G1 : Graph :=
      { G with nodes := nodeUpsert ir.2.path (NodeAttr.fileNode ir.2.type
          (threat_items.contains ir.1)) G.nodes }
    ir.2.tags.foldl (fun G t =>
      let G2 : Graph := if G.hasNode t then G else { G with nodes := G.nodes ++ [(t, NodeAttr.tagNode)] }
      G2.addEdge ir.2.path t) G1) ⟨[], []⟩

/-- Degree of a node: number of incident edges. -/
def Graph.degreeOf (G : Graph) (k : String) : Nat :=
  (G.edges.filter (fun e => e.1 == k || e.2 == k)).length

/-- Graph statistics reported by `build_tag_graph`. -/
structure GraphStats : Type where
  nodes : Nat
  edges : Nat
  top_central_nodes : List (String × ℚ)
  communities : Nat
  largest_community_size : Nat
deriving DecidableEq

/-- Modelled from the spec: modularity of a partition of the node set,
`Q = Σ_c (intra_c / m − (deg_c / 2m)²)`, the objective of the greedy
community merge of §4.4 (the source delegates this computation to an external
graph library whose code is not in `src/`). -/
def modularityOf (G : Graph) (P : List (List String)) : ℚ :=
  if G.edges.length = 0 then 0 else
  (P.map (fun c =>
    let intra : ℚ := ((G.edges.filter (fun e => c.contains e.1 && c.contains e.2)).length : ℚ)
    let dc : ℚ := ((c.map (fun n => G.degreeOf n)).sum : ℚ)
    intra / (G.edges.length : ℚ) - (dc / (2 * (G.edges.length : ℚ)))^2)).sum

/-- Whether an edge of `G` joins the two communities. -/
def connectedComms (G : Graph) (c d : List String) : Bool :=
  G.edges.any (fun e => (c.contains e.1 && d.contains e.2) ||
                        (c.contains e.2 && d.contains e.1))

/-- Merge the communities at positions `i < j` of the partition. -/
def mergeComms (P : List (List String)) (i j : Nat) : List (List String) :=
  (P.enum.filterMap (fun kc =>
    if kc.1 = j then none
    else if kc.1 = i then some (kc.2 ++ (P[j]?.getD []))
    else some kc.2))

/-- Modelled from the spec: one greedy step of §4.4 — among pairs of
communities joined by an edge, merge the pair with the largest modularity
gain (first such pair in insertion order on ties), if any merge improves
modularity. -/
def bestMerge (G : Graph) (P : List (List String)) : Option (List (List String)) :=
  let cands := (List.range P.length).flatMap (fun i =>
    ((List.range P.length).filter (fun j => i < j)).filterMap (fun j =>
      if connectedComms G (P[i]?.getD []) (P[j]?.getD []) then
        some (mergeComms P i j)
      else none))
  let best := cands.foldl (fun acc P' =>
    match acc with
    | none => some P'
    | some Pb => if modularityOf G Pb < modularityOf G P' then some P' else acc) none
  match best with
  | some Pb => if modularityOf G P < modularityOf G Pb then some Pb else none
  | none => none

/-- Modelled from the spec: iterate greedy merges until no merge improves
modularity (each merge shrinks the partition, so `fuel` merges suffice). -/
def greedySteps (G : Graph) : Nat → List (List String) → List (List String)
  | 0, P => P
  | fuel+1, P =>
    match bestMerge G P with
    | some P' => greedySteps G fuel P'
    | none => P

/-- Modelled from the spec: the §4.4 community detection — communities seeded
as singleton nodes in insertion order, then greedily merged by modularity. -/
def communitiesOf (G : Graph) : List (List String) :=
  greedySteps G G.nodes.length (G.nodes.map (fun na => [na.1]))

/-- Insert into a list sorted by decreasing centrality value. -/
def insertDesc (x : String × ℚ) : List (String × ℚ) → List (String × ℚ)
  | [] => [x]
  | y :: ys => if y.2 < x.2 then x :: y :: ys else y :: insertDesc x ys

/-- Sort by decreasing centrality value. -/
def sortDesc (l : List (String × ℚ)) : List (String × ℚ) := l.foldr insertDesc []

/-- Modelled from the spec: the graph statistics of `build_tag_graph` —
degree centrality `degree / (n − 1)` with the five most central nodes, and
the §4.4 communities; per the §4.4 failure mode, a graph with fewer than two
nodes yields zero communities and an empty top-centrality list instead of
failing. -/
def graph_stats (G : Graph) : GraphStats :=
  if G.nodes.length < 2 then
    ⟨G.nodes.length, G.edges.length, [], 0, 0⟩
  else
    let centrality := G.nodes.map (fun na =>
      (na.1, (G.degreeOf na.1 : ℚ) / ((G.nodes.length : ℚ) - 1)))
    let comms := communitiesOf G
    ⟨G.nodes.length, G.edges.length, (sortDesc centrality).take 5, comms.length,
     comms.foldl (fun m c => max m c.length) 0⟩

/-- The per-session analyzer state (`self` of `ForensicMetadataAnalyzer`):
the record set, the cached index partition, and the lazily computed
correlations and graph caches. -/
structure AnalyzerState : Type where
  data : List Record
  threat_items : List Nat
  safe_items : List Nat
  correlations : Option (List (String × List String) × List ((String × String) × Nat))
  tag_graph : Option Graph
deriving DecidableEq

/-- `load_json_data` on a fresh session: store the records and categorize
them (JSON parsing is an external collaborator; records arrive parsed). -/
def load_json_data (data : List Record) : AnalyzerState :=
  let c := categorize_items (data.map Record.toRaw)
  ⟨data, c.threat_items, c.safe_items, none, none⟩

/-- `find_tag_correlations`: computes shared tags and tag co-occurrence,
stores them in the session, and returns them. -/
def find_tag_correlations (s : AnalyzerState) :
    AnalyzerState × (List (String × List String) × List ((String × String) × Nat)) :=
  let st := shared_tags s.data
  let co := tag_cooccurrence s.data
  ({ s with correlations := some (st, co) }, (st, co))

/-- `build_tag_graph`: builds the relationship graph, stores it in the
session, and returns it with its statistics. -/
def build_tag_graph (s : AnalyzerState) : AnalyzerState × (Graph × GraphStats) :=
  let G := build_graph s.data s.threat_items
  ({ s with tag_graph := some G }, (G, graph_stats G))

/-- The paths of the records at the threat indices
(`[self.data[idx]['path'] for idx in self.threat_items]`). -/
def threatPaths (data : List Record) (threat_items : List Nat) : List String :=
  threat_items.filterMap (fun i => (data[i]?).map Record.path)

/-- One entry of the `text_contents` list of `analyze_content`. -/
structure TextItem : Type where
  path : String
  content : String
  is_threat : Bool
deriving DecidableEq

/-- The `text_contents` extraction of `analyze_content`: records of type
`file` with truthy content. -/
def text_contents (data : List Record) (threat_items : List Nat) : List TextItem :=
  data.filterMap (fun r =>
    if r.type = "file" && contentTruthy r.content then
      some ⟨r.path, contentStr r.content, (threatPaths data threat_items).contains r.path⟩
    else none)

/-- The content keyword list of `analyze_content`. -/
def analysisKeywords : List String :=
  ["bomb", "attack", "threat", "explosive", "rifle", "planning", "illegal"]

/-- `keyword_occurrences`: keyword to the paths whose content mentions it
(outer loop over items, inner loop over keywords, `defaultdict(list)`). -/
def keyword_occurrences (items : List TextItem) : List (String × List String) :=
  items.foldl (fun d it =>
    analysisKeywords.foldl (fun d kw =>
      if pyIn kw (lowerStr it.content) then dictApp kw it.path d else d) d) []

/-- `re.findall(r'\b\w+\b', content.lower())` as a set: the case-folded
word-token set of a text. -/
def wordSet (s : String) : Finset String :=
  (reFindAll (RE.seq RE.wordB (RE.seq (plusRE isWordChar) RE.wordB)) (lowerStr s)).toFinset

/-- A recorded content-similarity edge. -/
structure SimEdge : Type where
  file1 : String
  file2 : String
  similarity : ℚ
  common_words : Finset String
deriving DecidableEq

/-- The body of the pairwise loop of `analyze_content`: compare two text
items; skip the pair when either token set is empty (`if words1 and words2`),
otherwise record an edge when the Jaccard similarity strictly exceeds `0.1`. -/
def simEdgeOf (x y : TextItem) : Option SimEdge :=
  let w1 := wordSet x.content
  let w2 := wordSet y.content
  if w1.Nonempty ∧ w2.Nonempty then
    let sim : ℚ := ((w1 ∩ w2).card : ℚ) / ((w1 ∪ w2).card : ℚ)
    if (1 : ℚ)/10 < sim then some ⟨x.path, y.path, sim, w1 ∩ w2⟩ else none
  else none

/-- The `i < j` double loop of `analyze_content` over `text_contents`. -/
def simPairs : List TextItem → List SimEdge
  | [] => []
  | x :: xs => xs.filterMap (simEdgeOf x) ++ simPairs xs

/-- `analyze_content`: keyword occurrences and content-similarity edges
(reads the session's records and threat indices, stores nothing). -/
def analyze_content (data : List Record) (threat_items : List Nat) :
    List (String × List String) × List SimEdge :=
  let tc := text_contents data threat_items
  (keyword_occurrences tc, simPairs tc)

/-- `analyze_content` as a session operation (the method assigns no field of
`self`, so the state is returned unchanged). -/
def analyze_content_op (s : AnalyzerState) :
    AnalyzerState × (List (String × List String) × List SimEdge) :=
  (s, analyze_content s.data s.threat_items)

/-- The date pattern `(\d{4}-\d{2}-\d{2})` of `extract_date_patterns`. -/
def dateRE : RE :=
  RE.seq (repExact (RE.cls Char.isDigit) 4)
    (RE.seq (RE.cls (fun c => c == '-'))
      (RE.seq (repExact (RE.cls Char.isDigit) 2)
        (RE.seq (RE.cls (fun c => c == '-'))
          (repExact (RE.cls Char.isDigit) 2))))

/-- Digits of a numeral string as a number. -/
def natOfDigits (s : String) : Nat :=
  s.data.foldl (fun n c => n * 10 + (c.toNat - 48)) 0

/-- Gregorian leap year. -/
def isLeapYear (y : Nat) : Bool :=
  (y % 4 == 0 && y % 100 != 0) || y % 400 == 0

/-- Days in a month (`m` counted from 1). -/
def daysInMonth (y m : Nat) : Nat :=
  if m = 2 then (if isLeapYear y then 29 else 28)
  else if m = 4 || m = 6 || m = 9 || m = 11 then 30
  else 31

/-- Whether `datetime.strptime(s, '%Y-%m-%d')` accepts a `YYYY-MM-DD` token:
year at least 1, month 1–12, day valid for the month. -/
def validDate (s : String) : Bool :=
  let y := natOfDigits (String.mk (s.data.take 4))
  let m := natOfDigits (String.mk ((s.data.drop 5).take 2))
  let d := natOfDigits (String.mk (s.data.drop 8))
  1 ≤ y && 1 ≤ m && m ≤ 12 && 1 ≤ d && d ≤ daysInMonth y m

/-- `extract_date_patterns`: for each record take the first embedded date
token of its path if it parses, then group paths by date string (unparsable
or absent dates are skipped). -/
def extract_date_patterns (data : List Record) : List (String × List String) :=
  let file_dates := data.filterMap (fun r =>
    match (reFindAll dateRE r.path).head? with
    | some d => if validDate d then some (r.path, d) else none
    | none => none)
  file_dates.foldl (fun g pd => dictApp pd.2 pd.1 g) []

/-- The aggregate of `analyze_threats`. -/
structure ThreatAnalysis : Type where
  count : Nat
  types : List (String × Nat)
  tags : List (String × Nat)
  files : List (String × String × List String)
deriving DecidableEq

/-- `analyze_threats`: counts and listings over the records at the threat
indices (`Counter`s keyed in first-appearance order). -/
def analyze_threats (s : AnalyzerState) : ThreatAnalysis :=
  let items := s.threat_items.filterMap (fun i => s.data[i]?)
  { count := s.threat_items.length
    types := countDict (items.map (fun r => r.type))
    tags := countDict (items.flatMap (fun r => r.tags))
    files := items.map (fun r => (r.path, r.type, r.tags)) }

/-- The tag words that make a tag weapon-related in the report. -/
def weaponTagWords : List String := ["rifle", "revolver", "mask", "bulletproof"]

/-- The report assembled by `generate_threat_report`. -/
structure ThreatReport : Type where
  total_items : Nat
  threat_count : Nat
  weapon_related_items : Nat
  weapon_related_tags : List String
  related_files : List String
  key_content_keywords : List (String × List String)
  tag_connections : List ((String × String) × Nat)
  content_similarities : List SimEdge
  timeline : List (String × List String)
deriving DecidableEq

/-- `generate_threat_report`: ensure the cached correlations and graph exist,
run the content, date and threat analyses, and assemble the report.  The
source deduplicates `related_files` through a Python `set` whose order is
unspecified; `List.eraseDups` (keep first occurrences) realises one such
order. -/
def generate_threat_report (s : AnalyzerState) : AnalyzerState × ThreatReport :=
  let s1 := if s.correlations.isNone then (find_tag_correlations s).1 else s
  let s2 := if s1.tag_graph.isNone then (build_tag_graph s1).1 else s1
  let ca := analyze_content s2.data s2.threat_items
  let dp := extract_date_patterns s2.data
  let ta := analyze_threats s2
  let wrt := (ta.tags.filter (fun tc =>
    weaponTagWords.any (fun w => pyIn w (lowerStr tc.1)))).map (fun tc => tc.1)
  let corr := s2.correlations.getD ([], [])
  let related := (wrt.foldl (fun acc t =>
    match alookup corr.1 t with
    | some fs => acc ++ fs
    | none => acc) []).eraseDups
  let tpaths := threatPaths s2.data s2.threat_items
  let tsims := ca.2.filter (fun e => tpaths.contains e.file1 || tpaths.contains e.file2)
  (s2,
   { total_items := s2.data.length
     threat_count := s2.threat_items.length
     weapon_related_items := (s2.data.filter (fun r =>
       r.tags.any (fun t => wrt.contains t))).length
     weapon_related_tags := wrt
     related_files := related
     key_content_keywords := ca.1
     tag_connections := corr.2
     content_similarities := tsims
     timeline := dp })

/-! ## Lemmas about the categorizer loop -/

/-- When every record has its `path`, the loop completes and appends to the
accumulators a partition of the processed index range. -/
theorem categorizeAux_complete (data : List RawRecord) :
    ∀ (idx : Nat) (ts ss : List Nat), (∀ r ∈ data, r.path.isSome = true) →
    ∃ tn sn, categorizeAux data idx ts ss = ⟨ts ++ tn, ss ++ sn, true⟩ ∧
      (∀ i, (i ∈ tn ∨ i ∈ sn) ↔ (idx ≤ i ∧ i < idx + data.length)) ∧
      (∀ i, i ∈ tn → i ∉ sn) := by
  induction data with
  | nil =>
    intro idx ts ss _
    refine ⟨[], [], by simp [categorizeAux], ?_, by simp⟩
    intro i
    simp only [List.not_mem_nil, or_self, List.length_nil, false_iff, not_and, not_lt]
    omega
  | cons r rest ih =>
    intro idx ts ss h
    obtain ⟨p, hp⟩ := Option.isSome_iff_exists.mp (h r (List.mem_cons_self r rest))
    have hrest : ∀ r' ∈ rest, r'.path.isSome = true :=
      fun r' hr' => h r' (List.mem_cons_of_mem _ hr')
    by_cases hc : classifyRecord p r.content r.tags = true
    · obtain ⟨tn, sn, heq, hmem, hdis⟩ := ih (idx+1) (ts ++ [idx]) ss hrest
      refine ⟨idx :: tn, sn, ?_, ?_, ?_⟩
      · simpa [categorizeAux, hp, hc, List.append_assoc] using heq
      · intro i
        have hm := hmem i
        simp only [List.mem_cons] at *
        constructor
        · rintro ((rfl | h1) | h2)
          · simp only [List.length_cons]; omega
          · have := hm.mp (Or.inl h1); simp only [List.length_cons]; omega
          · have := hm.mp (Or.inr h2); simp only [List.length_cons]; omega
        · intro hi
          simp only [List.length_cons] at hi
          by_cases hidx : i = idx
          · exact Or.inl (Or.inl hidx)
          · rcases hm.mpr (by omega) with h1 | h2
            · exact Or.inl (Or.inr h1)
            · exact Or.inr h2
      · intro i hi hsn
        rcases List.mem_cons.mp hi with rfl | h1
        · have := (hmem i).mp (Or.inr hsn); omega
        · exact hdis i h1 hsn
    · obtain ⟨tn, sn, heq, hmem, hdis⟩ := ih (idx+1) ts (ss ++ [idx]) hrest
      refine ⟨tn, idx :: sn, ?_, ?_, ?_⟩
      · simpa [categorizeAux, hp, hc, List.append_assoc] using heq
      · intro i
        have hm := hmem i
        simp only [List.mem_cons] at *
        constructor
        · rintro (h1 | (rfl | h2))
          · have := hm.mp (Or.inl h1); simp only [List.length_cons]; omega
          · simp only [List.length_cons]; omega
          · have := hm.mp (Or.inr h2); simp only [List.length_cons]; omega
        · intro hi
          simp only [List.length_cons] at hi
          by_cases hidx : i = idx
          · exact Or.inr (Or.inl hidx)
          · rcases hm.mpr (by omega) with h1 | h2
            · exact Or.inl h1
            · exact Or.inr (Or.inr h2)
      · intro i hi hsn
        rcases List.mem_cons.mp hsn with rfl | h2
        · have := (hmem i).mp (Or.inl hi); omega
        · exact hdis i hi h2

/-- When the loop hits a record with no `path`, it aborts at that record,
keeping exactly the classifications accumulated over the preceding prefix. -/
theorem categorizeAux_abort (bad : RawRecord) (hbad : bad.path = none)
    (rest : List RawRecord) :
    ∀ (pre : List RawRecord) (idx : Nat) (ts ss : List Nat),
      (∀ r ∈ pre, r.path.isSome = true) →
      categorizeAux (pre ++ bad :: rest) idx ts ss =
        ⟨(categorizeAux pre idx ts ss).threat_items,
         (categorizeAux pre idx ts ss).safe_items, false⟩ := by
  intro pre
  induction pre with
  | nil =>
    intro idx ts ss _
    simp [categorizeAux, hbad]
  | cons r pre' ih =>
    intro idx ts ss h
    obtain ⟨p, hp⟩ := Option.isSome_iff_exists.mp (h r (List.mem_cons_self r pre'))
    have hpre' : ∀ r' ∈ pre', r'.path.isSome = true :=
      fun r' hr' => h r' (List.mem_cons_of_mem _ hr')
    by_cases hc : classifyRecord p r.content r.tags = true <;>
      simp [categorizeAux, hp, hc, ih (idx+1) _ _ hpre']

/-- `find_tag_correlations` leaves the index partition unchanged. -/
theorem find_tag_correlations_state (s : AnalyzerState) :
    (find_tag_correlations s).1.threat_items = s.threat_items ∧
    (find_tag_correlations s).1.safe_items = s.safe_items :=
  ⟨rfl, rfl⟩

/-- `build_tag_graph` leaves the index partition unchanged. -/
theorem build_tag_graph_state (s : AnalyzerState) :
    (build_tag_graph s).1.threat_items = s.threat_items ∧
    (build_tag_graph s).1.safe_items = s.safe_items :=
  ⟨rfl, rfl⟩

/-- `generate_threat_report` leaves the index partition unchanged. -/
theorem generate_threat_report_state (s : AnalyzerState) :
    (generate_threat_report s).1.threat_items = s.threat_items ∧
    (generate_threat_report s).1.safe_items = s.safe_items := by
  unfold generate_threat_report
  dsimp only
  split <;> split <;> exact ⟨rfl, rfl⟩

/-! ## Lemmas about string order and canonicalised pairs -/

theorem listLtChars_irrefl : ∀ as : List Char, listLtChars as as = false
  | [] => rfl
  | a :: as => by simp [listLtChars, listLtChars_irrefl as]

theorem listLtChars_asymm : ∀ as bs : List Char,
    listLtChars as bs = true → listLtChars bs as = false
  | [], [] => by simp [listLtChars]
  | [], _ :: _ => by simp [listLtChars]
  | _ :: _, [] => by simp [listLtChars]
  | a :: as, b :: bs => by
    intro h
    by_cases hab : a < b
    · simp [listLtChars, lt_asymm hab, hab]
    · by_cases hba : b < a
      · simp [listLtChars, hab, hba] at h
      · have : a = b := le_antisymm (not_lt.mp hba) (not_lt.mp hab)
        subst this
        simp only [listLtChars, lt_self_iff_false, if_false] at h ⊢
        exact listLtChars_asymm as bs h

theorem listLtChars_connex : ∀ as bs : List Char,
    as ≠ bs → listLtChars as bs = true ∨ listLtChars bs as = true
  | [], [] => fun h => absurd rfl h
  | [], _ :: _ => fun _ => Or.inl (by simp [listLtChars])
  | _ :: _, [] => fun _ => Or.inr (by simp [listLtChars])
  | a :: as, b :: bs => by
    intro h
    by_cases hab : a < b
    · exact Or.inl (by simp [listLtChars, hab])
    · by_cases hba : b < a
      · exact Or.inr (by simp [listLtChars, hba, lt_asymm hba])
      · have : a = b := le_antisymm (not_lt.mp hba) (not_lt.mp hab)
        subst this
        have hne : as ≠ bs := fun hd => h (by rw [hd])
        rcases listLtChars_connex as bs hne with h' | h'
        · exact Or.inl (by simpa [listLtChars, lt_self_iff_false] using h')
        · exact Or.inr (by simpa [listLtChars, lt_self_iff_false] using h')

theorem strLt_irrefl (a : String) : strLt a a = false := listLtChars_irrefl a.data

theorem strLt_asymm {a b : String} (h : strLt a b = true) : strLt b a = false :=
  listLtChars_asymm a.data b.data h

theorem strLt_ne {a b : String} (h : strLt a b = true) : a ≠ b := by
  rintro rfl
  rw [strLt_irrefl] at h
  exact Bool.false_ne_true h

theorem strLt_connex {a b : String} (h : a ≠ b) :
    strLt a b = true ∨ strLt b a = true := by
  refine listLtChars_connex a.data b.data ?_
  intro hd
  exact h (congrArg String.mk hd)

theorem strLe_of_strLt {a b : String} (h : strLt a b = true) : strLe a b = true := by
  simp [strLe, strLt_asymm h]

theorem strLe_false_lt {a b : String} (h : strLe a b = false) : strLt b a = true := by
  simpa [strLe] using h

theorem strLe_refl (a : String) : strLe a a = true := by
  simp [strLe, strLt_irrefl]

theorem sortPair_cases (a b : String) :
    sortPair a b = (a, b) ∨ sortPair a b = (b, a) := by
  unfold sortPair
  split <;> simp

theorem sortPair_le (a b : String) :
    strLe (sortPair a b).1 (sortPair a b).2 = true := by
  unfold sortPair
  by_cases h : strLe a b = true
  · simp [h]
  · have hba := strLe_false_lt (Bool.eq_false_iff.mpr h)
    simp only [h, if_false, Bool.if_false_right]
    simp [strLe, strLt_asymm hba]

theorem sortPair_strict {a b : String} (h : a ≠ b) :
    strLt (sortPair a b).1 (sortPair a b).2 = true := by
  unfold sortPair
  by_cases hle : strLe a b = true
  · have : strLt b a = false := by simpa [strLe] using hle
    rcases strLt_connex h with h' | h'
    · simpa [hle]
    · rw [this] at h'; exact absurd h' (by simp)
  · have hba := strLe_false_lt (Bool.eq_false_iff.mpr hle)
    simpa [hle]

theorem sortPair_eq_left {a b u : String} (hab : strLt a b = true) :
    sortPair a u = (a, b) ↔ u = b := by
  constructor
  · intro h
    by_cases hle : strLe a u = true
    · have : (a, u) = (a, b) := by rwa [sortPair, if_pos hle] at h
      exact (Prod.mk.injEq _ _ _ _ ▸ this).2
    · have : (u, a) = (a, b) := by rwa [sortPair, if_neg hle] at h
      have h2 := (Prod.mk.injEq _ _ _ _ ▸ this).2
      exact absurd h2 (strLt_ne hab)
  · rintro rfl
    rw [sortPair, if_pos (strLe_of_strLt hab)]

theorem sortPair_eq_right {a b u : String} (hab : strLt a b = true) :
    sortPair b u = (a, b) ↔ u = a := by
  constructor
  · intro h
    by_cases hle : strLe b u = true
    · have : (b, u) = (a, b) := by rwa [sortPair, if_pos hle] at h
      have h1 := (Prod.mk.injEq _ _ _ _ ▸ this).1
      exact absurd h1.symm (strLt_ne hab)
    · have : (u, b) = (a, b) := by rwa [sortPair, if_neg hle] at h
      exact (Prod.mk.injEq _ _ _ _ ▸ this).1
  · intro h
    rw [h]
    have hba : strLe b a = false := by simp [strLe, hab]
    rw [sortPair, hba]
    simp

theorem sortPair_ne {a b t u : String} (hta : t ≠ a) (htb : t ≠ b) :
    sortPair t u ≠ (a, b) := by
  rcases sortPair_cases t u with h | h <;> rw [h] <;> intro hc
  · exact hta (Prod.mk.injEq _ _ _ _ ▸ hc).1
  · exact htb (Prod.mk.injEq _ _ _ _ ▸ hc).2

theorem sortPair_eq_diag {a t u : String} :
    sortPair t u = (a, a) ↔ t = a ∧ u = a := by
  constructor
  · intro h
    rcases sortPair_cases t u with h' | h' <;> rw [h'] at h
    · exact ⟨(Prod.mk.injEq _ _ _ _ ▸ h).1, (Prod.mk.injEq _ _ _ _ ▸ h).2⟩
    · exact ⟨(Prod.mk.injEq _ _ _ _ ▸ h).2, (Prod.mk.injEq _ _ _ _ ▸ h).1⟩
  · intro h
    rw [h.1, h.2, sortPair, if_pos (strLe_refl a)]

/-! ## Counting occurrences in lists -/

/-- Number of occurrences of `k` in a list. -/
def cnt {α : Type} [DecidableEq α] (k : α) : List α → Nat
  | [] => 0
  | x :: l => (if x = k then 1 else 0) + cnt k l

theorem cnt_append {α : Type} [DecidableEq α] (k : α) :
    ∀ l1 l2 : List α, cnt k (l1 ++ l2) = cnt k l1 + cnt k l2
  | [], _ => by simp [cnt]
  | x :: l1, l2 => by simp [cnt, cnt_append k l1 l2]; omega

theorem cnt_eq_zero {α : Type} [DecidableEq α] {k : α} :
    ∀ {l : List α}, k ∉ l → cnt k l = 0
  | [], _ => rfl
  | x :: l, h => by
    have hx : ¬ x = k := fun hk => h (hk ▸ List.mem_cons_self x l)
    have hl : k ∉ l := fun hk => h (List.mem_cons_of_mem _ hk)
    simp [cnt, hx, cnt_eq_zero hl]

theorem cnt_nodup {α : Type} [DecidableEq α] {k : α} :
    ∀ {l : List α}, l.Nodup → cnt k l = if k ∈ l then 1 else 0
  | [], _ => by simp [cnt]
  | x :: l, h => by
    obtain ⟨hx, hl⟩ := List.nodup_cons.mp h
    by_cases hxk : x = k
    · subst hxk
      simp [cnt, cnt_eq_zero hx]
    · have hkx : ¬ k = x := fun h => hxk h.symm
      simp [cnt, hxk, cnt_nodup hl, List.mem_cons, hkx]

/-! ## Lemmas about the co-occurrence pair lists -/

theorem pairsOfTags_mem :
    ∀ {ts : List String} {pr : String × String}, pr ∈ pairsOfTags ts →
      pr.1 ∈ ts ∧ pr.2 ∈ ts := by
  intro ts
  induction ts with
  | nil => intro pr h; simp [pairsOfTags] at h
  | cons t ts ih =>
    intro pr h
    rcases List.mem_append.mp h with h1 | h2
    · obtain ⟨u, hu, heq⟩ := List.mem_map.mp h1
      rcases sortPair_cases t u with hc | hc <;> rw [hc] at heq <;> subst heq
      · exact ⟨List.mem_cons_self t ts, List.mem_cons_of_mem _ hu⟩
      · exact ⟨List.mem_cons_of_mem _ hu, List.mem_cons_self t ts⟩
    · obtain ⟨h1, h2⟩ := ih h2
      exact ⟨List.mem_cons_of_mem _ h1, List.mem_cons_of_mem _ h2⟩

theorem pairsOfTags_strict :
    ∀ {ts : List String}, ts.Nodup → ∀ {pr : String × String}, pr ∈ pairsOfTags ts →
      strLt pr.1 pr.2 = true := by
  intro ts
  induction ts with
  | nil => intro _ pr h; simp [pairsOfTags] at h
  | cons t ts ih =>
    intro hnd pr h
    obtain ⟨ht, hts⟩ := List.nodup_cons.mp hnd
    rcases List.mem_append.mp h with h1 | h2
    · obtain ⟨u, hu, heq⟩ := List.mem_map.mp h1
      have htu : t ≠ u := fun he => ht (he ▸ hu)
      rw [← heq]
      exact sortPair_strict htu
    · exact ih hts h2

theorem cnt_map_sortPair_left {a b : String} (hab : strLt a b = true) :
    ∀ ts : List String, cnt (a, b) (ts.map (sortPair a)) = cnt b ts
  | [] => rfl
  | u :: ts => by
    simp only [List.map_cons, cnt, cnt_map_sortPair_left hab ts]
    congr 1
    simp only [sortPair_eq_left hab]

theorem cnt_map_sortPair_right {a b : String} (hab : strLt a b = true) :
    ∀ ts : List String, cnt (a, b) (ts.map (sortPair b)) = cnt a ts
  | [] => rfl
  | u :: ts => by
    simp only [List.map_cons, cnt, cnt_map_sortPair_right hab ts]
    congr 1
    simp only [sortPair_eq_right hab]

theorem cnt_map_sortPair_other {a b t : String} (hta : t ≠ a) (htb : t ≠ b) :
    ∀ ts : List String, cnt (a, b) (ts.map (sortPair t)) = 0
  | [] => rfl
  | u :: ts => by
    simp only [List.map_cons, cnt, cnt_map_sortPair_other hta htb ts]
    simp [sortPair_ne hta htb]

theorem cnt_pairsOfTags_zero {a b : String} :
    ∀ {ts : List String}, a ∉ ts → cnt (a, b) (pairsOfTags ts) = 0 := by
  intro ts ha
  apply cnt_eq_zero
  intro hmem
  exact ha (pairsOfTags_mem hmem).1

theorem cnt_pairsOfTags_zero_right {a b : String} :
    ∀ {ts : List String}, b ∉ ts → cnt (a, b) (pairsOfTags ts) = 0 := by
  intro ts hb
  apply cnt_eq_zero
  intro hmem
  exact hb (pairsOfTags_mem hmem).2

theorem cnt_pairsOfTags {a b : String} (hab : strLt a b = true) :
    ∀ {ts : List String}, ts.Nodup →
      cnt (a, b) (pairsOfTags ts) = if a ∈ ts ∧ b ∈ ts then 1 else 0 := by
  intro ts
  induction ts with
  | nil => intro _; simp [pairsOfTags, cnt]
  | cons t ts ih =>
    intro hnd
    obtain ⟨ht, hts⟩ := List.nodup_cons.mp hnd
    rw [pairsOfTags, cnt_append]
    have hne : a ≠ b := strLt_ne hab
    by_cases hta : t = a
    · subst hta
      rw [cnt_map_sortPair_left hab, cnt_pairsOfTags_zero ht, cnt_nodup hts]
      have hba : ¬ b = t := fun h => hne h.symm
      by_cases hb : b ∈ ts
      · simp [hb, List.mem_cons, hba]
      · simp [hb, List.mem_cons, hba]
    · by_cases htb : t = b
      · subst htb
        rw [cnt_map_sortPair_right hab, cnt_pairsOfTags_zero_right ht, cnt_nodup hts]
        have hab2 : ¬ a = t := hne
        by_cases ha : a ∈ ts
        · simp [ha, List.mem_cons, hab2]
        · simp [ha, List.mem_cons, hab2]
      · have hta' : ¬ a = t := fun h => hta h.symm
        have htb' : ¬ b = t := fun h => htb h.symm
        rw [cnt_map_sortPair_other hta htb, ih hts]
        simp only [List.mem_cons, hta', htb', false_or]
        exact Nat.zero_add _

theorem cnt_pairsOfTags_diag {a : String} :
    ∀ {ts : List String}, ts.Nodup → cnt (a, a) (pairsOfTags ts) = 0 := by
  intro ts
  induction ts with
  | nil => intro _; simp [pairsOfTags, cnt]
  | cons t ts ih =>
    intro hnd
    obtain ⟨ht, hts⟩ := List.nodup_cons.mp hnd
    rw [pairsOfTags, cnt_append, ih hts]
    have hz : cnt (a, a) (ts.map (sortPair t)) = 0 := by
      apply cnt_eq_zero
      intro hmem
      obtain ⟨u, hu, heq⟩ := List.mem_map.mp hmem
      obtain ⟨h1, h2⟩ := sortPair_eq_diag.mp heq
      subst h1
      subst h2
      exact ht hu
    rw [hz]

/-! ## Lemmas about the counting dictionary -/

theorem alookup_bump_self {α : Type} [DecidableEq α] (k : α) :
    ∀ d : List (α × Nat), alookup (bump k d) k = some ((alookup d k).getD 0 + 1)
  | [] => by simp [bump, alookup]
  | kv :: rest => by
    by_cases h : kv.1 = k
    · simp [bump, alookup, h]
    · simp [bump, alookup, h, alookup_bump_self k rest]

theorem alookup_bump_ne {α : Type} [DecidableEq α] {k k' : α} (h : k' ≠ k) :
    ∀ d : List (α × Nat), alookup (bump k d) k' = alookup d k'
  | [] => by
    have hkk : ¬ k = k' := fun hc => h hc.symm
    simp [bump, alookup, hkk]
  | kv :: rest => by
    have hkk : ¬ k = k' := fun hc => h hc.symm
    by_cases hk : kv.1 = k
    · have h1 : ¬ kv.1 = k' := fun hc => hkk (hk.symm.trans hc)
      simp [bump, if_pos hk, alookup, h1]
    · by_cases hk' : kv.1 = k'
      · simp only [bump, if_neg hk, alookup, if_pos hk']
      · simp only [bump, if_neg hk, alookup, if_neg hk', alookup_bump_ne h rest]

theorem alookup_foldl_bump {α : Type} [DecidableEq α] :
    ∀ (l : List α) (d : List (α × Nat)) (k : α),
      (alookup (l.foldl (fun d x => bump x d) d) k).getD 0 =
        (alookup d k).getD 0 + cnt k l
  | [], _, _ => by simp [cnt]
  | x :: l, d, k => by
    rw [List.foldl_cons, alookup_foldl_bump l (bump x d) k]
    by_cases h : x = k
    · subst h
      rw [alookup_bump_self]
      simp [cnt]
      omega
    · rw [alookup_bump_ne (fun hc => h hc.symm)]
      simp [cnt, h]

theorem alookup_countDict {α : Type} [DecidableEq α] (l : List α) (k : α) :
    (alookup (countDict l) k).getD 0 = cnt k l := by
  have := alookup_foldl_bump l [] k
  simpa [countDict, alookup] using this

theorem bump_mem {α : Type} [DecidableEq α] {k : α} {kv : α × Nat} :
    ∀ {d : List (α × Nat)}, kv ∈ bump k d → kv.1 = k ∨ kv ∈ d
  | [], h => by
    simp only [bump, List.mem_singleton] at h
    exact Or.inl (by rw [h])
  | kv' :: rest, h => by
    by_cases hk : kv'.1 = k
    · rw [bump, if_pos hk] at h
      rcases List.mem_cons.mp h with h | h
      · exact Or.inl (by rw [h]; exact hk)
      · exact Or.inr (List.mem_cons_of_mem _ h)
    · rw [bump, if_neg hk] at h
      rcases List.mem_cons.mp h with h | h
      · exact Or.inr (h ▸ List.mem_cons_self kv' rest)
      · rcases bump_mem h with h | h
        · exact Or.inl h
        · exact Or.inr (List.mem_cons_of_mem _ h)

theorem countDict_mem {α : Type} [DecidableEq α] {kv : α × Nat} :
    ∀ {l : List α} {d : List (α × Nat)},
      kv ∈ l.foldl (fun d x => bump x d) d → kv ∈ d ∨ kv.1 ∈ l := by
  intro l
  induction l with
  | nil => intro d h; exact Or.inl h
  | cons x l ih =>
    intro d h
    rw [List.foldl_cons] at h
    rcases ih h with h | h
    · rcases bump_mem h with h | h
      · exact Or.inr (h ▸ List.mem_cons_self x l)
      · exact Or.inl h
    · exact Or.inr (List.mem_cons_of_mem _ h)

/-! ## Characterising `file_to_tags` on duplicate-free paths -/

theorem dictApp_notmem {α β : Type} [DecidableEq α] {k : α} (v : β) :
    ∀ {d : List (α × List β)}, k ∉ d.map Prod.fst →
      dictApp k v d = d ++ [(k, [v])]
  | [], _ => rfl
  | kv :: rest, h => by
    have hk : ¬ kv.1 = k := fun hc => h (by simp [hc])
    have hrest : k ∉ rest.map Prod.fst := fun hc => h (by simp [hc])
    simp [dictApp, hk, dictApp_notmem v hrest]

theorem dictApp_mid {α β : Type} [DecidableEq α] {k : α} (v : β) (vs : List β)
    (e : List (α × List β)) :
    ∀ {d : List (α × List β)}, k ∉ d.map Prod.fst →
      dictApp k v (d ++ (k, vs) :: e) = d ++ (k, vs ++ [v]) :: e
  | [], _ => by simp [dictApp]
  | kv :: rest, h => by
    have hk : ¬ kv.1 = k := fun hc => h (by simp [hc])
    have hrest : k ∉ rest.map Prod.fst := fun hc => h (by simp [hc])
    simp [dictApp, hk, dictApp_mid v vs e hrest]

theorem tagsFold_acc {k : String} (e : List (String × List String))
    (hk : k ∉ e.map Prod.fst) :
    ∀ (ts acc : List String),
      ts.foldl (fun d t => dictApp k t d) (e ++ [(k, acc)]) = e ++ [(k, acc ++ ts)]
  | [], acc => by simp
  | t :: ts, acc => by
    rw [List.foldl_cons, dictApp_mid t acc [] hk, tagsFold_acc e hk ts (acc ++ [t])]
    simp

theorem tagsFold_notmem {k : String} {d : List (String × List String)}
    (hk : k ∉ d.map Prod.fst) (ts : List String) :
    tagsFold k ts d = if ts.isEmpty then d else d ++ [(k, ts)] := by
  cases ts with
  | nil => rfl
  | cons t ts =>
    rw [tagsFold, List.foldl_cons, dictApp_notmem t hk, tagsFold_acc d hk ts [t]]
    rfl

/-- A record's contribution to `file_to_tags`: nothing for an empty tag list. -/
def pathTags (r : Record) : Option (String × List String) :=
  if r.tags.isEmpty then none else some (r.path, r.tags)

theorem file_to_tags_foldl :
    ∀ (data : List Record) (d : List (String × List String)),
      (data.map Record.path).Nodup →
      (∀ r ∈ data, r.path ∉ d.map Prod.fst) →
      data.foldl (fun d r => tagsFold r.path r.tags d) d =
        d ++ data.filterMap pathTags
  | [], d, _, _ => by simp
  | r :: rest, d, hnd, hd => by
    rw [List.map_cons, List.nodup_cons] at hnd
    obtain ⟨hr, hrest⟩ := hnd
    have hdr : r.path ∉ d.map Prod.fst := hd r (List.mem_cons_self r rest)
    rw [List.foldl_cons, tagsFold_notmem hdr]
    by_cases he : r.tags.isEmpty = true
    · rw [if_pos he]
      rw [file_to_tags_foldl rest d hrest (fun r' h' => hd r' (List.mem_cons_of_mem _ h'))]
      have h0 : pathTags r = none := by rw [pathTags, if_pos he]
      rw [List.filterMap_cons, h0]
    · rw [if_neg he]
      have hd' : ∀ r' ∈ rest, r'.path ∉ (d ++ [(r.path, r.tags)]).map Prod.fst := by
        intro r' h'
        have h1 : r'.path ∉ d.map Prod.fst := hd r' (List.mem_cons_of_mem _ h')
        have h2 : ¬ r'.path = r.path := by
          intro hc
          exact hr (hc ▸ List.mem_map.mpr ⟨r', h', rfl⟩)
        simp [h1, h2]
      rw [file_to_tags_foldl rest (d ++ [(r.path, r.tags)]) hrest hd']
      have h1 : pathTags r = some (r.path, r.tags) := by rw [pathTags, if_neg he]
      rw [List.filterMap_cons, h1, List.append_assoc]
      rfl

theorem file_to_tags_eq (data : List Record) (hnd : (data.map Record.path).Nodup) :
    file_to_tags data = data.filterMap pathTags := by
  have := file_to_tags_foldl data [] hnd (by simp)
  simpa [file_to_tags] using this

theorem pairsOfTags_guard : ∀ ts : List String,
    (if 1 < ts.length then pairsOfTags ts else []) = pairsOfTags ts
  | [] => rfl
  | [_] => rfl
  | _ :: _ :: ts => by
    rw [if_pos (by simp only [List.length_cons]; omega)]

theorem flatMap_guard : ∀ l : List (String × List String),
    l.flatMap (fun kv => if 1 < kv.2.length then pairsOfTags kv.2 else []) =
      l.flatMap (fun kv => pairsOfTags kv.2)
  | [] => rfl
  | kv :: rest => by
    rw [List.flatMap_cons, List.flatMap_cons, pairsOfTags_guard, flatMap_guard rest]

theorem filterMap_pathTags_flatMap : ∀ data : List Record,
    (data.filterMap pathTags).flatMap (fun kv => pairsOfTags kv.2) =
      data.flatMap (fun r => pairsOfTags r.tags)
  | [] => rfl
  | r :: rest => by
    by_cases he : r.tags.isEmpty = true
    · have h0 : pathTags r = none := by rw [pathTags, if_pos he]
      have hre : r.tags = [] := by simpa using he
      rw [List.filterMap_cons, h0]
      show (rest.filterMap pathTags).flatMap _ = _
      rw [List.flatMap_cons, filterMap_pathTags_flatMap rest, hre]
      rfl
    · have h1 : pathTags r = some (r.path, r.tags) := by rw [pathTags, if_neg he]
      rw [List.filterMap_cons, h1]
      show pairsOfTags r.tags ++ (rest.filterMap pathTags).flatMap _ = _
      rw [List.flatMap_cons, filterMap_pathTags_flatMap rest]

theorem coocPairs_eq (data : List Record) (hnd : (data.map Record.path).Nodup) :
    coocPairs data = data.flatMap (fun r => pairsOfTags r.tags) := by
  rw [coocPairs, file_to_tags_eq data hnd, flatMap_guard, filterMap_pathTags_flatMap]

theorem cnt_flatMap_pairs {a b : String} (hab : strLt a b = true) :
    ∀ data : List Record, (∀ r ∈ data, r.tags.Nodup) →
      cnt (a, b) (data.flatMap (fun r => pairsOfTags r.tags)) =
        (data.filter (fun r => r.tags.contains a && r.tags.contains b)).length
  | [], _ => rfl
  | r :: rest, htags => by
    rw [List.flatMap_cons, cnt_append,
        cnt_pairsOfTags hab (htags r (List.mem_cons_self r rest)),
        cnt_flatMap_pairs hab rest (fun r' h' => htags r' (List.mem_cons_of_mem _ h')),
        List.filter_cons]
    by_cases hm : a ∈ r.tags ∧ b ∈ r.tags
    · have hc : (r.tags.contains a && r.tags.contains b) = true := by
        rw [Bool.and_eq_true]
        exact ⟨List.elem_iff.mpr hm.1, List.elem_iff.mpr hm.2⟩
      rw [if_pos hm, if_pos hc, List.length_cons]
      omega
    · have hc : ¬ (r.tags.contains a && r.tags.contains b) = true := by
        intro hcc
        rw [Bool.and_eq_true] at hcc
        exact hm ⟨List.elem_iff.mp hcc.1, List.elem_iff.mp hcc.2⟩
      rw [if_neg hm, if_neg hc, Nat.zero_add]

/-! ## Lemmas about the content-similarity analyzer -/

/-- Modelled from the spec (for the refinement comparison of the similarity
contract): Jaccard similarity `|intersection| / |union|` over the case-folded
word-token sets of two texts. -/
def specJaccard (s1 s2 : String) : ℚ :=
  ((wordSet s1 ∩ wordSet s2).card : ℚ) / ((wordSet s1 ∪ wordSet s2).card : ℚ)

/-- Modelled from the spec (for the refinement comparison of the similarity
contract): emit an edge exactly when both token sets are non-empty and the
Jaccard similarity strictly exceeds `0.1`. -/
def specSimEdgeOf (x y : TextItem) : Option SimEdge :=
  if (wordSet x.content).Nonempty ∧ (wordSet y.content).Nonempty ∧
      (1 : ℚ)/10 < specJaccard x.content y.content then
    some ⟨x.path, y.path, specJaccard x.content y.content,
      wordSet x.content ∩ wordSet y.content⟩
  else none

theorem simEdgeOf_eq_spec (x y : TextItem) : simEdgeOf x y = specSimEdgeOf x y := by
  simp only [simEdgeOf, specSimEdgeOf, specJaccard]
  split_ifs with h1 h2 h3 h4 h5
  · rfl
  · exact absurd ⟨h1.1, h1.2, h2⟩ h3
  · exact absurd h4.2.2 h2
  · rfl
  · exact absurd ⟨h5.1, h5.2.1⟩ h1
  · rfl

theorem simEdgeOf_bounds {x y : TextItem} {e : SimEdge}
    (h : simEdgeOf x y = some e) :
    ((1 : ℚ)/10 < e.similarity ∧ e.similarity ≤ 1) ∧
      e.file1 = x.path ∧ e.file2 = y.path := by
  simp only [simEdgeOf] at h
  split_ifs at h with h1 h2
  · have he := Option.some.inj h
    subst he
    refine ⟨⟨h2, ?_⟩, rfl, rfl⟩
    have hpos : (0 : ℚ) < ((wordSet x.content ∪ wordSet y.content).card : ℚ) := by
      have h0 : 0 < (wordSet x.content ∪ wordSet y.content).card :=
        Finset.card_pos.mpr (Finset.Nonempty.mono Finset.subset_union_left h1.1)
      exact_mod_cast h0
    rw [div_le_one hpos]
    exact_mod_cast Finset.card_le_card
      (Finset.Subset.trans Finset.inter_subset_left Finset.subset_union_left)

theorem simPairs_bounds :
    ∀ (items : List TextItem) (e : SimEdge), e ∈ simPairs items →
      (1 : ℚ)/10 < e.similarity ∧ e.similarity ≤ 1 := by
  intro items
  induction items with
  | nil => intro e h; simp [simPairs] at h
  | cons x xs ih =>
    intro e h
    rw [simPairs] at h
    rcases List.mem_append.mp h with h | h
    · obtain ⟨y, _, hxy⟩ := List.mem_filterMap.mp h
      exact (simEdgeOf_bounds hxy).1
    · exact ih e h

theorem simPairs_distinct :
    ∀ items : List TextItem, (items.map TextItem.path).Nodup →
      ∀ e ∈ simPairs items, e.file1 ≠ e.file2 := by
  intro items
  induction items with
  | nil => intro _ e h; simp [simPairs] at h
  | cons x xs ih =>
    intro hnd e h
    rw [List.map_cons, List.nodup_cons] at hnd
    obtain ⟨hx, hxs⟩ := hnd
    rw [simPairs] at h
    rcases List.mem_append.mp h with h | h
    · obtain ⟨y, hy, hxy⟩ := List.mem_filterMap.mp h
      obtain ⟨_, hf1, hf2⟩ := simEdgeOf_bounds hxy
      rw [hf1, hf2]
      intro hc
      exact hx (hc ▸ List.mem_map.mpr ⟨y, hy, rfl⟩)
    · exact ih hxs e h

/-! ## Claim theorems -/

/-- C1: for every record sequence in which every record has a `path` field,
loaded once into a fresh analyzer session, the categorizer's threat-index-set
and safe-index-set are disjoint and their union is the set of all indices
into the sequence; and no subsequent analysis operation (tag correlation,
graph building, content analysis, report generation) changes either index
set. -/
theorem categorizer_partition_and_stability (data : List RawRecord)
    (h : ∀ r ∈ data, r.path.isSome = true) :
    ((categorize_items data).ok = true ∧
      (∀ i, (i ∈ (categorize_items data).threat_items ∨
             i ∈ (categorize_items data).safe_items) ↔ i < data.length) ∧
      (∀ i, ¬ (i ∈ (categorize_items data).threat_items ∧
               i ∈ (categorize_items data).safe_items))) ∧
    (∀ s : AnalyzerState,
      (find_tag_correlations s).1.threat_items = s.threat_items ∧
      (find_tag_correlations s).1.safe_items = s.safe_items ∧
      (build_tag_graph s).1.threat_items = s.threat_items ∧
      (build_tag_graph s).1.safe_items = s.safe_items ∧
      (analyze_content_op s).1.threat_items = s.threat_items ∧
      (analyze_content_op s).1.safe_items = s.safe_items ∧
      (generate_threat_report s).1.threat_items = s.threat_items ∧
      (generate_threat_report s).1.safe_items = s.safe_items) := by
  constructor
  · obtain ⟨tn, sn, heq, hmem, hdis⟩ := categorizeAux_complete data 0 [] [] h
    rw [categorize_items, heq]
    refine ⟨rfl, ?_, ?_⟩
    · intro i
      have hm := hmem i
      simp only [List.nil_append]
      constructor
      · intro hi
        have := hm.mp hi
        omega
      · intro hi
        exact hm.mpr (by omega)
    · intro i hi
      simp only [List.nil_append] at hi
      exact hdis i hi.1 hi.2
  · intro s
    exact ⟨rfl, rfl, rfl, rfl, rfl, rfl,
      (generate_threat_report_state s).1, (generate_threat_report_state s).2⟩

/-- Witness for C1 at a concrete one-record input. -/
theorem categorizer_partition_and_stability_witness :
    (categorize_items [⟨some "a_threat.txt", "file", none, []⟩]).ok = true ∧
      (0 ∈ (categorize_items [⟨some "a_threat.txt", "file", none, []⟩]).threat_items ∨
       0 ∈ (categorize_items [⟨some "a_threat.txt", "file", none, []⟩]).safe_items) := by
  have h := categorizer_partition_and_stability
    [⟨some "a_threat.txt", "file", none, []⟩] (by decide)
  exact ⟨h.1.1, (h.1.2.1 0).mpr (by decide)⟩

/-- Modelled from the spec's six-step first-match-wins decision order (the
second definition of the refinement comparison of claim C2). -/
def classifySpecOrder (path : String) (content : Option String) (tags : List String) : Bool :=
  if pyIn "_threat" (lowerStr path) then true
  else if pyIn "threat" (lowerStr (contentStr content)) then true
  else if pyIn "_safe" (lowerStr path) then false
  else if contentVocab.any (fun k => pyIn k (lowerStr (contentStr content))) then true
  else if weaponVocab.any (fun w => pyIn w (lowerStr (pyReprList tags))) then true
  else false

/-- No content keyword is a substring of the empty text. -/
theorem vocabAny_of_empty (s : String) (hs : s.data = []) :
    contentVocab.any (fun k => pyIn k (lowerStr s)) = false := by
  cases s with
  | mk l =>
    have hl : l = [] := hs
    subst hl
    decide

/-- C2: the categorizer classifies exactly by the six-step first-match-wins
order of the spec (path `_threat`; content `threat`; path `_safe`; content
vocabulary; weapon tags; otherwise safe); in particular a record whose path
contains `_safe` and whose content contains `bomb` but not `threat` is
classified safe. -/
theorem categorizer_rule_order :
    (∀ (path : String) (content : Option String) (tags : List String),
        classifyRecord path content tags = classifySpecOrder path content tags) ∧
    classifyRecord "report_safe.txt" (some "found a bomb") [] = false := by
  constructor
  · intro path content tags
    rw [classifyRecord, classifySpecOrder]
    by_cases hA : pyIn "_threat" (lowerStr path) = true
    · simp [hA]
    · by_cases hB : pyIn "threat" (lowerStr (contentStr content)) = true
      · simp [hA, hB]
      · simp only [hA, hB, Bool.or_self, if_false, Bool.false_or]
        by_cases hS : pyIn "_safe" (lowerStr path) = true
        · simp [hS]
        · simp only [hS, if_false]
          by_cases hT : contentTruthy content = true
          · simp [hT]
          · have hX : contentVocab.any (fun k => pyIn k (lowerStr (contentStr content))) = false := by
              cases content with
              | none => decide
              | some s =>
                have hs : s.data = [] := by
                  have := Bool.eq_false_iff.mpr hT
                  simp only [contentTruthy, Bool.not_eq_true'] at this
                  exact List.isEmpty_iff.mp (by simpa using this)
                exact vocabAny_of_empty s hs
            simp [hT, hX]
  · decide

/-- C9 counterexample: on a fresh session, categorizing a batch whose second
record lacks `path` aborts but keeps the first record's classification —
the threat-index-set is `[0]`, not empty as the claim states. -/
theorem categorize_partial_state_counterexample :
    categorize_items [⟨some "a_threat.txt", "file", none, []⟩, ⟨none, "file", none, []⟩] =
      ⟨[0], [], false⟩ ∧ ([0] : List Nat) ≠ ([] : List Nat) :=
  ⟨by decide, by decide⟩

/-- C9 (amended): a record with no `path` makes categorization abort
immediately at that record; the records before it keep their classification
(exactly the partition of the prefix indices), so the two index sets are
empty only when the malformed record comes first. -/
theorem categorize_abort_prefix (pre : List RawRecord) (bad : RawRecord)
    (rest : List RawRecord) (hpre : ∀ r ∈ pre, r.path.isSome = true)
    (hbad : bad.path = none) :
    (categorize_items (pre ++ bad :: rest)).ok = false ∧
    (categorize_items (pre ++ bad :: rest)).threat_items =
      (categorize_items pre).threat_items ∧
    (categorize_items (pre ++ bad :: rest)).safe_items =
      (categorize_items pre).safe_items ∧
    (∀ i, (i ∈ (categorize_items (pre ++ bad :: rest)).threat_items ∨
           i ∈ (categorize_items (pre ++ bad :: rest)).safe_items) ↔ i < pre.length) := by
  have habort := categorizeAux_abort bad hbad rest pre 0 [] [] hpre
  simp only [categorize_items]
  rw [habort]
  obtain ⟨tn, sn, heq, hmem, _⟩ := categorizeAux_complete pre 0 [] [] hpre
  rw [heq]
  refine ⟨rfl, rfl, rfl, ?_⟩
  intro i
  have hm := hmem i
  simp only [List.nil_append]
  constructor
  · intro hi
    have := hm.mp hi
    omega
  · intro hi
    exact hm.mpr (by omega)

/-- Witness for the amended C9 at a concrete two-record input. -/
theorem categorize_abort_prefix_witness :
    (categorize_items [⟨some "a_threat.txt", "file", none, []⟩,
        ⟨none, "file", none, []⟩]).ok = false ∧
    (0 ∈ (categorize_items [⟨some "a_threat.txt", "file", none, []⟩,
        ⟨none, "file", none, []⟩]).threat_items ∨
     0 ∈ (categorize_items [⟨some "a_threat.txt", "file", none, []⟩,
        ⟨none, "file", none, []⟩]).safe_items) := by
  have h := categorize_abort_prefix [⟨some "a_threat.txt", "file", none, []⟩]
    ⟨none, "file", none, []⟩ [] (by decide) rfl
  exact ⟨h.1, (h.2.2.2 0).mpr (by decide)⟩

/-- C3: for every entry, the matcher's score is the number of keyword matches
plus twice the number of detected entities, the entry is flagged
`threat_detected` iff the score is positive, and an empty or missing text
yields zero keyword matches, zero entities and score `0` (the analysis is a
total function, so no error is possible). -/
theorem matcher_score_spec (e : Entry) :
    (analyzeEntry e).score =
      compute_score (detect_keywords (extractText e.content)).2.length
        (detect_entities (extractText e.content)).length ∧
    ((analyzeEntry e).threat_detected = true ↔ 0 < (analyzeEntry e).score) ∧
    (extractText e.content = "" →
      (analyzeEntry e).keywords = [] ∧ (analyzeEntry e).entities = [] ∧
        (analyzeEntry e).score = 0) := by
  refine ⟨rfl, ?_, ?_⟩
  · show decide (0 < (analyzeEntry e).score) = true ↔ 0 < (analyzeEntry e).score
    exact decide_eq_true_iff
  · intro h
    have h1 : (analyzeEntry e).keywords = (detect_keywords (extractText e.content)).2 := rfl
    have h2 : (analyzeEntry e).entities = detect_entities (extractText e.content) := rfl
    have h3 : (analyzeEntry e).score =
        compute_score (detect_keywords (extractText e.content)).2.length
          (detect_entities (extractText e.content)).length := rfl
    rw [h1, h2, h3, h]
    exact ⟨by decide, by decide, by decide⟩

/-- Witness for C3 at an entry with no content. -/
theorem matcher_score_spec_witness :
    (analyzeEntry ⟨none, none, PyContent.absent⟩).keywords = [] ∧
    (analyzeEntry ⟨none, none, PyContent.absent⟩).entities = [] ∧
    (analyzeEntry ⟨none, none, PyContent.absent⟩).score = 0 :=
  (matcher_score_spec ⟨none, none, PyContent.absent⟩).2.2 rfl

/-- C4 counterexample: a record whose tag list repeats a tag name makes the
co-occurrence map contain the diagonal pair `(A, A)` (with count 1), which
the claim says never appears. -/
theorem tag_cooccurrence_diag_counterexample :
    (("a", "a"), 1) ∈ tag_cooccurrence [⟨"p", "file", none, ["a", "a"]⟩] ∧
      ("a", "a") = (("a" : String), ("a" : String)) :=
  ⟨by decide, rfl⟩

/-- C4 (amended): when record paths are distinct and every record's tag list
is duplicate-free, the co-occurrence map's keys are strictly sorted pairs of
distinct tags (so `(A,B)` and `(B,A)` never both appear and no `(A,A)`
appears), and the count of a sorted pair equals the number of files carrying
both tags; a record with a duplicated tag name violates this (see the
counterexample). -/
theorem tag_cooccurrence_canonical_counts (data : List Record)
    (hpaths : (data.map Record.path).Nodup)
    (htags : ∀ r ∈ data, r.tags.Nodup) :
    (∀ pr n, (pr, n) ∈ tag_cooccurrence data → strLt pr.1 pr.2 = true) ∧
    (∀ a b : String, a ≠ b →
      ¬ ((∃ n, ((a, b), n) ∈ tag_cooccurrence data) ∧
         (∃ m, ((b, a), m) ∈ tag_cooccurrence data))) ∧
    (∀ a b : String, strLt a b = true →
      (alookup (tag_cooccurrence data) (a, b)).getD 0 =
        (data.filter (fun r => r.tags.contains a && r.tags.contains b)).length) := by
  have hkey : ∀ pr n, (pr, n) ∈ tag_cooccurrence data → strLt pr.1 pr.2 = true := by
    intro pr n hmem
    rw [tag_cooccurrence, countDict] at hmem
    rcases countDict_mem hmem with h | h
    · simp at h
    · rw [coocPairs_eq data hpaths] at h
      obtain ⟨r, hr, hpr⟩ := List.mem_flatMap.mp h
      exact pairsOfTags_strict (htags r hr) hpr
  refine ⟨hkey, ?_, ?_⟩
  · rintro a b _ ⟨⟨n, hn⟩, ⟨m, hm⟩⟩
    have h1 := hkey (a, b) n hn
    have h2 := hkey (b, a) m hm
    rw [strLt_asymm h1] at h2
    exact Bool.false_ne_true h2
  · intro a b hab
    rw [tag_cooccurrence, alookup_countDict, coocPairs_eq data hpaths]
    exact cnt_flatMap_pairs hab data htags

/-- Witness for the amended C4: two files sharing the tags `a` and `b` give
the canonical pair `(a, b)` the count 2. -/
theorem tag_cooccurrence_canonical_counts_witness :
    (alookup (tag_cooccurrence [⟨"f1", "file", none, ["a", "b"]⟩,
        ⟨"f2", "file", none, ["b", "a"]⟩]) ("a", "b")).getD 0 = 2 := by
  have h := (tag_cooccurrence_canonical_counts
    [⟨"f1", "file", none, ["a", "b"]⟩, ⟨"f2", "file", none, ["b", "a"]⟩]
    (by decide) (by decide)).2.2 "a" "b" (by decide)
  rw [h]
  decide

/-- C7 (the code at the failing input): the source's Terrorism pattern list
merges `\brecruitment\b` and `\brifle\b` into one unmatchable pattern, so the
standalone word `recruitment` triggers no category and no keyword match at
all — the matcher does not report Terrorism as the claim (and the spec's
intended fix) requires. -/
theorem terrorism_recruitment_no_match :
    detect_keywords "recruitment" = ([], []) ∧
    ("Terrorism" ∈ (detect_keywords "recruitment").1 → False) ∧
    (analyzeEntry ⟨some "f.txt", none, PyContent.str "recruitment"⟩).score = 0 :=
  ⟨by decide, by decide, by decide⟩

/-- C8: a relationship graph with fewer than two nodes yields zero
communities and an empty top-centrality list, and the (total) statistics
function cannot fail.  The statistics layer is modelled from the spec
(§4.4), since the source delegates it to an external graph library. -/
theorem graph_stats_degenerate (s : AnalyzerState)
    (h : (build_graph s.data s.threat_items).nodes.length < 2) :
    ((build_tag_graph s).2.2).communities = 0 ∧
    ((build_tag_graph s).2.2).top_central_nodes = [] := by
  have he : (build_tag_graph s).2.2 = graph_stats (build_graph s.data s.threat_items) := rfl
  rw [he, graph_stats, if_pos h]
  exact ⟨rfl, rfl⟩

/-- Witness for C8 on the empty record set (a zero-node graph). -/
theorem graph_stats_degenerate_witness :
    ((build_tag_graph ⟨[], [], [], none, none⟩).2.2).communities = 0 ∧
    ((build_tag_graph ⟨[], [], [], none, none⟩).2.2).top_central_nodes = [] :=
  graph_stats_degenerate ⟨[], [], [], none, none⟩ (by decide)

/-- C5: the pairwise comparison of the content analyzer coincides with the
spec's contract (Jaccard over case-folded token sets, emit exactly on
similarity strictly above `0.1`, skip pairs with an empty token set — hence
no division by zero); every recorded edge has similarity in `(0.1, 1]`; and
under distinct paths no edge joins a file to itself (no self-pairs). -/
theorem similarity_edges_spec :
    (∀ x y : TextItem, simEdgeOf x y = specSimEdgeOf x y) ∧
    (∀ (data : List Record) (threat_items : List Nat) (e : SimEdge),
        e ∈ (analyze_content data threat_items).2 →
        (1 : ℚ)/10 < e.similarity ∧ e.similarity ≤ 1) ∧
    (∀ (data : List Record) (threat_items : List Nat),
        ((text_contents data threat_items).map TextItem.path).Nodup →
        ∀ e ∈ (analyze_content data threat_items).2, e.file1 ≠ e.file2) := by
  refine ⟨simEdgeOf_eq_spec, ?_, ?_⟩
  · intro data ti e he
    exact simPairs_bounds (text_contents data ti) e he
  · intro data ti hnd e he
    exact simPairs_distinct (text_contents data ti) hnd e he

/-- The two-record input of the C5 witness. -/
def simWitnessData : List Record :=
  [⟨"p1", "file", some "hello world", []⟩, ⟨"p2", "file", some "hello world zed", []⟩]

/-- The edge the analyzer records on `simWitnessData` (similarity `2/3`). -/
def simWitnessEdge : SimEdge :=
  ⟨"p1", "p2",
    ((wordSet "hello world" ∩ wordSet "hello world zed").card : ℚ) /
      ((wordSet "hello world" ∪ wordSet "hello world zed").card : ℚ),
    wordSet "hello world" ∩ wordSet "hello world zed"⟩

/-- Witness for C5 at a concrete pair of overlapping texts. -/
theorem similarity_edges_spec_witness :
    ((1 : ℚ)/10 < simWitnessEdge.similarity ∧ simWitnessEdge.similarity ≤ 1) ∧
      simWitnessEdge.file1 ≠ simWitnessEdge.file2 := by
  have h1 : (wordSet "hello world").Nonempty ∧ (wordSet "hello world zed").Nonempty :=
    ⟨by decide, by decide⟩
  have h2 : (1 : ℚ)/10 <
      ((wordSet "hello world" ∩ wordSet "hello world zed").card : ℚ) /
        ((wordSet "hello world" ∪ wordSet "hello world zed").card : ℚ) := by
    rw [show (wordSet "hello world" ∩ wordSet "hello world zed").card = 2 from by decide,
        show (wordSet "hello world" ∪ wordSet "hello world zed").card = 3 from by decide]
    norm_num
  have hse : simEdgeOf ⟨"p1", "hello world", false⟩ ⟨"p2", "hello world zed", false⟩ =
      some simWitnessEdge := by
    show (if (wordSet "hello world").Nonempty ∧ (wordSet "hello world zed").Nonempty then
            if (1 : ℚ)/10 <
                ((wordSet "hello world" ∩ wordSet "hello world zed").card : ℚ) /
                  ((wordSet "hello world" ∪ wordSet "hello world zed").card : ℚ) then
              some simWitnessEdge
            else none
          else none) = some simWitnessEdge
    rw [if_pos h1, if_pos h2]
  have hmem : simWitnessEdge ∈ (analyze_content simWitnessData []).2 := by
    show simWitnessEdge ∈ simPairs (text_contents simWitnessData [])
    rw [show text_contents simWitnessData [] =
        [⟨"p1", "hello world", false⟩, ⟨"p2", "hello world zed", false⟩] from by decide]
    have hsp : simPairs [(⟨"p1", "hello world", false⟩ : TextItem),
        ⟨"p2", "hello world zed", false⟩] = [simWitnessEdge] := by
      show ([(⟨"p2", "hello world zed", false⟩ : TextItem)].filterMap
          (simEdgeOf ⟨"p1", "hello world", false⟩)) ++
            simPairs [⟨"p2", "hello world zed", false⟩] = [simWitnessEdge]
      rw [List.filterMap_cons, hse]
      rfl
    rw [hsp]
    exact List.mem_singleton_self _
  exact ⟨similarity_edges_spec.2.1 simWitnessData [] simWitnessEdge hmem,
    similarity_edges_spec.2.2 simWitnessData [] (by decide) simWitnessEdge hmem⟩

/-- The two-record example input of the spec's §8. -/
def exampleData : List Record :=
  [⟨"a_threat.txt", "file", some "planning an attack", ["rifle", "mask"]⟩,
   ⟨"b_safe.txt", "file", some "grocery list", ["food"]⟩]

/-- C6 counterexample: on the spec's own example input the report's
`related_files` is `[]` — no tag is shared by more than one file, so the
union of `shared_tags` over the weapon-related tags is empty — and not
`["a_threat.txt"]` as the claim states. -/
theorem example_report_related_files_counterexample :
    (generate_threat_report (load_json_data exampleData)).2.related_files = [] ∧
    (generate_threat_report (load_json_data exampleData)).2.related_files ≠
      ["a_threat.txt"] := by
  have h : (generate_threat_report (load_json_data exampleData)).2.related_files = [] := by
    decide
  refine ⟨h, ?_⟩
  rw [h]
  decide

/-- C6 (amended): on the example input the pipeline produces
threat-index-set `{0}`, safe-index-set `{1}`, empty `shared_tags`,
`weapon_related_tags = ["rifle", "mask"]`, and — since `shared_tags` is
empty — `related_files = []`. -/
theorem example_report_values :
    (load_json_data exampleData).threat_items = [0] ∧
    (load_json_data exampleData).safe_items = [1] ∧
    (find_tag_correlations (load_json_data exampleData)).2.1 = [] ∧
    (generate_threat_report (load_json_data exampleData)).2.weapon_related_tags =
      ["rifle", "mask"] ∧
    (generate_threat_report (load_json_data exampleData)).2.related_files = [] :=
  ⟨by decide, by decide, by decide, by decide, by decide⟩

/-- C10: on the 16-digit dashed number `1234-5678-9012-3456` the entity
detector reports a phone entity and a credit-card entity over the same digit
substring (the phone match is a prefix of the credit-card match), with no
deduplication across types; there are no keyword matches, so each of the two
entities contributes exactly 2 to the score, which is 4, and the record is
flagged as a threat. -/
theorem phone_card_double_count :
    detect_entities "1234-5678-9012-3456" =
      [("phone", "1234-5678-9012"), ("credit_card", "1234-5678-9012-3456")] ∧
    pyIn "1234-5678-9012" "1234-5678-9012-3456" = true ∧
    (detect_keywords "1234-5678-9012-3456").2 = [] ∧
    compute_score (detect_keywords "1234-5678-9012-3456").2.length
      (detect_entities "1234-5678-9012-3456").length = 4 ∧
    (analyzeEntry ⟨some "n.txt", none, PyContent.str "1234-5678-9012-3456"⟩).score = 4 ∧
    (analyzeEntry ⟨some "n.txt", none,
      PyContent.str "1234-5678-9012-3456"⟩).threat_detected = true :=
  ⟨by decide, by decide, by decide, by decide, by decide, by decide⟩
